import Mathlib

/-!
Verification of the vectorized environment coordinator
(`src/common/gym_wrappers/batch_env/async_vector_env.py`).

The coordinator drives N worker processes, each owning one environment
instance.  We give a shallow embedding: the controller-side object is a
`Coord` value; the per-worker channel is a slot that holds the reply the
worker has produced for the command sent this round; machine-level
concurrency is abstracted to the poll outcome of `_poll(timeout)`,
which we pass as an explicit boolean.
-/

deriving instance DecidableEq for Except

namespace Sequoia

/-- Opaque Python-level payload values transferable across the process
boundary (spec 6: Reply value is opaque).  `ref` is a reference to
another object (used for the `env` delegate link of a wrapper),
`method` is a bound method resolved on an object, `pytype` stands for a
Python class object `type(obj)`. -/
inductive PyVal where
  | none
  | bool (b : Bool)
  | nat (n : Nat)
  | str (s : String)
  | ref (id : Nat)
  | method (owner : Nat) (name : String)
  | pytype (owner : Nat)
deriving DecidableEq

/-- Python truthiness of a `PyVal`, used by `all(...)` in `__getattr__`. -/
def pyTruthy : PyVal → Bool
  | .none => false
  | .bool b => b
  | .nat n => n != 0
  | .str s => s != ""
  | .ref _ => true
  | .method _ _ => true
  | .pytype _ => true

/-- The exceptions the coordinator code can raise.
`closedEnvironment` models `_assert_is_running` on a closed coordinator,
`alreadyPendingCall` carries `self._state.value`, `noAsyncCall` carries the
expected waiting state's value, `remote` re-raises a worker-side failure,
`assertionError` models a failed `assert`. -/
inductive PyErr where
  | closedEnvironment
  | alreadyPendingCall (pending : String)
  | noAsyncCall (expected : String)
  | timeout
  | assertionError (msg : String)
  | indexError
  | remote (value : PyVal)
  | attributeError (name : String)
deriving DecidableEq

/-- The coordinator call state: gym's `AsyncState` enum
(`DEFAULT`, `WAITING_RESET`, `WAITING_STEP`) together with the repo's
`ExtendedAsyncState.WAITING_APPLY`.  Members of the two Python enums are
never equal to each other, so merging them into one type is faithful for
every `==`/`!=` test the code performs. -/
inductive AsyncState where
  | default
  | waitingReset
  | waitingStep
  | waitingApply
deriving DecidableEq

/-- The `.value` string of each state member (gym: "default", "reset",
"step"; `ExtendedAsyncState.WAITING_APPLY.value = "apply"`). -/
def AsyncState.value : AsyncState → String
  | .default => "default"
  | .waitingReset => "reset"
  | .waitingStep => "step"
  | .waitingApply => "apply"

/-- A unit of work shipped to a worker: it receives the worker's
environment instance and either returns a payload value (possibly
mutating the environment) or raises, which the worker catches. -/
def Work (Env : Type) : Type := Env → Except String (PyVal × Env)

/-- The `functions` argument of `apply` / `apply_async`: either a single
callable (broadcast to all workers) or one entry per worker where a
non-callable placeholder (`None`) is `Option.none`. -/
inductive Funs (Env : Type) where
  | single (f : Work Env)
  | many (fs : List (Option (Work Env)))

/-- A worker's reply on its channel: `(value, success)` (spec 3). -/
abbrev Reply := PyVal × Bool

/-- Controller-side state of `AsyncVectorEnv`.
`envs` are the environment instances owned by the N workers (worker
`i`'s private instance), `state` is `self._state`, `expects_result` is
`self.expects_result`, and `pipes` holds, per worker, the reply sitting
unread in the channel (`None` when the channel is empty). -/
structure Coord (Env : Type) where
  envs : List Env
  closed : Bool
  state : AsyncState
  expects_result : List Bool
  pipes : List (Option Reply)
deriving DecidableEq

/-- `self.num_envs`. -/
def Coord.num_envs {Env : Type} (c : Coord Env) : Nat := c.envs.length

/-- Modelled from the spec: the worker loop lives in
`batch_env/worker.py`, which is not under `src/`.  Per spec 4.1 the
worker invokes the unit of work with its environment instance as sole
argument; any exception is caught and reported as
`(error_description, false)` without crashing the loop, success is
reported as `(value, true)`. -/
def workerApply {Env : Type} (env : Env) (f : Work Env) : Reply × Env :=
  match f env with
  | .ok (v, env') => ((v, true), env')
  | .error msg => ((.str msg, false), env)

/-- The send loop of `apply_async`:
`for pipe, function in zip(self.parent_pipes, functions)` — a callable
entry appends `True` to `expects_result` and sends
`(Commands.apply, function)` to that worker (which executes it and
leaves its reply in the channel); a non-callable entry appends `False`
and sends nothing.  Returns (expects_result, channel contents, updated
worker environments). -/
def sendLoop {Env : Type} :
    List Env → List (Option (Work Env)) →
      List Bool × List (Option Reply) × List Env
  | _, [] => ([], [], [])
  | [], _ :: _ => ([], [], [])
  | env :: envs, f? :: fs =>
    let (es, rs, ws) := sendLoop envs fs
    match f? with
    | some f =>
      let (r, env') := workerApply env f
      (true :: es, some r :: rs, env' :: ws)
    | none => (false :: es, none :: rs, env :: ws)

/-- `AsyncVectorEnv.apply_async` (lines 106-124): assert running, refuse
unless `self._state == AsyncState.DEFAULT` (else
`AlreadyPendingCallError` naming the in-flight call), broadcast a single
callable to `num_envs` copies, assert one entry per env, rebuild
`expects_result` while sending `Apply` only to the addressed workers,
then set `self._state = ExtendedAsyncState.WAITING_APPLY`. -/
def apply_async {Env : Type} (c : Coord Env) (functions : Funs Env) :
    Except PyErr Unit × Coord Env :=
  if c.closed then (.error .closedEnvironment, c)
  else if c.state ≠ AsyncState.default then
    (.error (.alreadyPendingCall c.state.value), c)
  else
    let fs : List (Option (Work Env)) :=
      match functions with
      | .single f => List.replicate c.num_envs (some f)
      | .many gs => gs
    if fs.length = c.num_envs then
      let (es, rs, ws) := sendLoop c.envs fs
      (.ok (), { c with envs := ws, expects_result := es, pipes := rs,
                        state := .waitingApply })
    else (.error (.assertionError "Need a function for each env."), c)

/-- The receive loop of `apply_wait`:
`for pipe, need_result in zip(self.parent_pipes, self.expects_result)` —
an addressed worker's reply is read from its channel, an unaddressed
worker contributes the implicit `(None, True)`.  (A `recv` on an empty
channel would block forever; that situation is unreachable because
`expects_result` is written in the same round that fills the channels,
and we return the implicit reply for it.) -/
def recvLoop : List (Option Reply) → List Bool → List Reply
  | _, [] => []
  | [], _ :: _ => []
  | r? :: rs, need :: needs =>
    (if need then
       match r? with
       | some r => r
       | none => (PyVal.none, true)
     else (PyVal.none, true)) :: recvLoop rs needs

/-- Channels after the receive loop: every channel that was read
(`need_result = true`) is drained; the others keep their content. -/
def drain : List (Option Reply) → List Bool → List (Option Reply)
  | rs, [] => rs
  | [], _ :: _ => []
  | r? :: rs, need :: needs =>
    (if need then Option.none else r?) :: drain rs needs

/-- `AsyncVectorEnv.apply_wait` (lines 126-152): assert running, refuse
unless `self._state == ExtendedAsyncState.WAITING_APPLY` (else
`NoAsyncCallError`); poll all channels — on exhaustion reset
`self._state = AsyncState.DEFAULT` and raise a timeout; otherwise
collect one reply per addressed worker (implicit `(None, True)` for the
others), then `self._raise_if_errors(successes)` and only after that
`self._state = AsyncState.DEFAULT`.

`ready` is the outcome of `self._poll(timeout)` (inherited from gym):
`True` whenever `timeout is None`, and otherwise whether every addressed
channel became readable within `timeout` seconds.
`_raise_if_errors` (inherited from gym; modelled from the spec, which
says the first worker-reported failure is re-raised) raises when any
success flag is false — so on that path the assignment
`self._state = AsyncState.DEFAULT` on line 151 is never executed. -/
def apply_wait {Env : Type} (c : Coord Env) (ready : Bool) :
    Except PyErr (List PyVal) × Coord Env :=
  if c.closed then (.error .closedEnvironment, c)
  else if c.state ≠ AsyncState.waitingApply then
    (.error (.noAsyncCall AsyncState.waitingApply.value), c)
  else if ready = false then (.error .timeout, { c with state := .default })
  else
    let rr := recvLoop c.pipes c.expects_result
    let c' := { c with pipes := drain c.pipes c.expects_result }
    match rr.find? (fun p => !p.2) with
    | some p => (.error (.remote p.1), c')
    | none => (.ok (rr.map (·.1)), { c' with state := .default })

/-- `AsyncVectorEnv.apply` (lines 92-104): `apply_async` then
`apply_wait`.  `ready` is the poll outcome passed through to
`apply_wait`; the callers modelled here all use the default
`timeout=None`, for which `_poll` always returns `True`. -/
def apply {Env : Type} (c : Coord Env) (functions : Funs Env)
    (ready : Bool) : Except PyErr (List PyVal) × Coord Env :=
  match apply_async c functions with
  | (.error e, c') => (.error e, c')
  | (.ok _, c') => apply_wait c' ready

/-- The `index` argument of `apply_at`: a scalar `int` or an index
collection. -/
inductive Ix where
  | int (i : Nat)
  | coll (is : List Nat)

/-- `indices = [index] if isinstance(index, int) else index`. -/
def ixIndices : Ix → List Nat
  | .int i => [i]
  | .coll l => l

/-- The full-length operation list `apply_at` builds:
`[operation if i in indices else None for i in range(self.num_envs)]`. -/
def operationsFor {Env : Type} (n : Nat) (operation : Work Env)
    (indices : List Nat) : List (Option (Work Env)) :=
  (List.range n).map
    (fun i => if i ∈ indices then some operation else Option.none)

/-- `AsyncVectorEnv.apply_at` (lines 162-178): build a full-length
operation list (the operation at the given indices, `None` elsewhere),
delegate to `apply`, then unwrap — a scalar index returns
`results[index]` (a single value, not a list); an index collection
returns `[result for i, result in enumerate(results) if i in indices]`. -/
def apply_at {Env : Type} (c : Coord Env) (operation : Work Env)
    (index : Ix) : Except PyErr (PyVal ⊕ List PyVal) × Coord Env :=
  let indices : List Nat := ixIndices index
  let operations : List (Option (Work Env)) :=
    operationsFor c.num_envs operation indices
  match apply c (.many operations) true with
  | (.error e, c') => (.error e, c')
  | (.ok results, c') =>
    match index with
    | .int i =>
      if h : i < results.length then (.ok (.inl (results.get ⟨i, h⟩)), c')
      else (.error .indexError, c')
    | .coll _ =>
      (.ok (.inr ((results.enum.filter (fun p => p.1 ∈ indices)).map
        (fun p => p.2))), c')

/-!
## The remote environment objects

Modelled from the spec: the environment instances are external
collaborators ("consumed as an opaque capability set", spec 1), built by
`env_fns` outside this repository.  The claims about attribute access
need them to be chains of delegate objects (spec 3 EnvProxy / spec 9
"walking a chain of delegate objects"): each object owns a finite
attribute map; a wrapper holds its wrapped env under the attribute
`"env"` as an object reference; attribute lookup (`getattr`) reads the
object's own attributes first and otherwise delegates along the `"env"`
link (the wrapper contract), raising `AttributeError` at the end of the
chain.  A worker's environment is a heap of such objects plus the root
(outermost) object it hands to units of work.
-/

/-- An object's own attributes. -/
abbrev AttrMap := List (String × PyVal)

/-- A worker-local object store; an object is its index in the list. -/
abbrev Heap := List AttrMap

/-- Own-attribute lookup on one object. -/
def lookupAttr (m : AttrMap) (name : String) : Option PyVal :=
  (m.find? (fun p => p.1 == name)).map (fun p => p.2)

/-- Own-attribute lookup through the heap. -/
def heapAttr (h : Heap) (id : Nat) (name : String) : Option PyVal :=
  (h.get? id).bind (fun m => lookupAttr m name)

/-- The delegate link of a wrapper: its own `"env"` attribute, when that
is an object reference. -/
def envLink (h : Heap) (id : Nat) : Option Nat :=
  match heapAttr h id "env" with
  | some (.ref j) => some j
  | _ => Option.none

/-- Modelled from the spec: delegating attribute lookup on a wrapper
chain — own attributes first, then the wrapped env.  The fuel bounds the
delegation depth; `heap.length + 1` steps are enough to reach any object
of an acyclic chain, and a cyclic chain's lookup, which does not
terminate in the real system, exhausts the fuel and fails. -/
def getattrGo (h : Heap) (name : String) : Nat → Nat → Except String PyVal
  | 0, _ => .error "RecursionError"
  | fuel + 1, id =>
    match heapAttr h id name with
    | some v => .ok v
    | Option.none =>
      match envLink h id with
      | some j => getattrGo h name fuel j
      | Option.none => .error ("AttributeError: " ++ name)

/-- A worker's environment: its private object heap and the outermost
wrapper object handed to units of work. -/
structure WEnv where
  heap : Heap
  root : Nat
deriving DecidableEq

/-- `getattr(env, name)` on a worker's environment. -/
def getattrW (e : WEnv) (name : String) : Except String PyVal :=
  getattrGo e.heap name (e.heap.length + 1) e.root

/-- `hasattr(obj, name)` on a heap object: whether `getattr` succeeds. -/
def hasattrH (h : Heap) (id : Nat) (name : String) : Bool :=
  (getattrGo h name (h.length + 1) id).isOk

/-- `hasattr(env, name)` on a worker's environment. -/
def hasattrW (e : WEnv) (name : String) : Bool := (getattrW e name).isOk

/-- `hasattr_` (lines 276-280): keyword-friendly `hasattr`. -/
def hasattr_ (e : WEnv) (name : String) : Bool := hasattrW e name

/-- `setattr(obj, name, value)` on one heap object: bind `name` in the
object's own attribute map (own lookup reads the newest binding first).
A dangling object id leaves the heap unchanged; it is unreachable for
the object graphs the workers actually hold. -/
def setObjAttr (h : Heap) (id : Nat) (name : String) (v : PyVal) : Heap :=
  match h.get? id with
  | some m => h.set id ((name, v) :: m)
  | Option.none => h

/-- The `while` loop of `set_wrapper_attribute` (lines 315-319):
`while not hasattr(env, name) and hasattr(env, "env") and env not in
wrappers: wrappers.append(env); env = env.env`.  Returns the object the
loop stops at.  The fuel only makes the recursion structural; the
visited list `wrappers` is what bounds the walk, and
`heap.length + 1` units of fuel are proved sufficient below. -/
def swaLoop (h : Heap) (name : String) :
    Nat → Nat → List Nat → Nat
  | 0, env, _ => env
  | fuel + 1, env, wrappers =>
    match envLink h env with
    | some nxt =>
      if hasattrH h env name = false ∧ env ∉ wrappers then
        swaLoop h name fuel nxt (wrappers ++ [env])
      else env
    | Option.none => env

/-- `set_wrapper_attribute` (lines 305-321): walk the wrapper chain from
the outermost object until one already has the attribute (or the chain
ends, or an object repeats), then set the attribute there.  The Python
function returns `type(env)`; we return the target object itself, which
identifies that type. -/
def set_wrapper_attribute (e : WEnv) (name : String) (value : PyVal) :
    WEnv × Nat :=
  let t := swaLoop e.heap name (e.heap.length + 1) e.root []
  ({ heap := setObjAttr e.heap t name value, root := e.root }, t)

/-!
## Units of work used by the attribute machinery
-/

/-- `attrgetter(name)` as a unit of work: read the attribute off the
worker's environment; a missing attribute raises, which the worker
catches. -/
def attrgetterWork (name : String) : Work WEnv := fun e =>
  match getattrW e name with
  | .ok v => .ok (v, e)
  | .error m => .error m

/-- `partial(hasattr_, name=name)` as a unit of work. -/
def hasattrWork (name : String) : Work WEnv := fun e =>
  .ok (.bool (hasattr_ e name), e)

/-- `partial(set_wrapper_attribute, name=name, value=value)` as a unit
of work; its result is `type(env)` of the object the attribute was set
on. -/
def setWrapperWork (name : String) (value : PyVal) : Work WEnv := fun e =>
  let r := set_wrapper_attribute e name value
  .ok (.pytype r.2, r.1)

/-- `ismethod` on a payload value. -/
def isMethod : PyVal → Bool
  | .method _ _ => true
  | _ => false

/-!
## The Proxy and the coordinator `__getattr__` fallback
-/

/-- What reading an attribute off a Proxy yields.
`batchedMethod` models the `BatchedMethod` object (its class lives in
`batch_env/batched_method.py`, which is not under `src/`; modelled from
the spec: it wraps the per-worker bound methods, ready to be invoked in
one `apply_at` round).  `result` is the single value a scalar-indexed
proxy returns, `results` the per-worker list otherwise. -/
inductive ProxyRes where
  | batchedMethod (methods : List PyVal)
  | result (v : PyVal)
  | results (vs : List PyVal)
deriving DecidableEq

/-- `Proxy.__getattribute__` (lines 223-234):
`results = apply_at_indices(attrgetter(name))`; when the results are a
list whose members are all bound methods, wrap them in a
`BatchedMethod`, otherwise return them as they are. -/
def proxy_getattribute (c : Coord WEnv) (index : Ix) (name : String) :
    Except PyErr ProxyRes × Coord WEnv :=
  match apply_at c (attrgetterWork name) index with
  | (.error e, c') => (.error e, c')
  | (.ok (.inl v), c') => (.ok (.result v), c')
  | (.ok (.inr vs), c') =>
    if vs.all isMethod then (.ok (.batchedMethod vs), c')
    else (.ok (.results vs), c')

/-- `Proxy.__setattr__` (lines 236-244):
`apply_at_indices(partial(set_wrapper_attribute, name=name, value=value))`. -/
def proxy_setattr (c : Coord WEnv) (index : Ix) (name : String)
    (value : PyVal) : Except PyErr (PyVal ⊕ List PyVal) × Coord WEnv :=
  apply_at c (setWrapperWork name value) index

/-- What the coordinator's `__getattr__` fallback returns: the bare
`None` of the `"closed"` / `"_state"` short-circuit, or the forwarded
full-index Proxy read. -/
inductive AttrAccess where
  | pyNone
  | forwarded (r : ProxyRes)
deriving DecidableEq

/-- `AsyncVectorEnv.__getattr__` (lines 180-189): names `"closed"` and
`"_state"` return `None` immediately; otherwise probe every worker with
`self.apply(partial(hasattr_, name=name))`, and only when all report the
attribute present, re-assert running and forward the read to the
full-index proxy `self[:]` (whose index resolves to
`tuple(range(self.num_envs))`); otherwise raise `AttributeError(name)`. -/
def coordGetattr (c : Coord WEnv) (name : String) :
    Except PyErr AttrAccess × Coord WEnv :=
  if name = "closed" ∨ name = "_state" then (.ok .pyNone, c)
  else
    match apply c (.single (hasattrWork name)) true with
    | (.error e, c₁) => (.error e, c₁)
    | (.ok flags, c₁) =>
      if flags.all pyTruthy then
        if c₁.closed then (.error .closedEnvironment, c₁)
        else
          match proxy_getattribute c₁ (.coll (List.range c₁.num_envs))
              name with
          | (.error e, c₂) => (.error e, c₂)
          | (.ok r, c₂) => (.ok (.forwarded r), c₂)
      else (.error (.attributeError name), c₁)

/-!
## Characterization of one apply round
-/

/-- Channel content produced for one worker by the send loop. -/
def replyOf {Env : Type} (env : Env) : Option (Work Env) → Option Reply
  | some f => some (workerApply env f).1
  | Option.none => Option.none

/-- A worker's environment after the send loop. -/
def newEnvOf {Env : Type} (env : Env) : Option (Work Env) → Env
  | some f => (workerApply env f).2
  | Option.none => env

/-- The reply the receive loop records for one worker: the worker's
actual reply when it was addressed, the implicit `(None, True)`
otherwise. -/
def recvdOf {Env : Type} (env : Env) : Option (Work Env) → Reply
  | some f => (workerApply env f).1
  | Option.none => (PyVal.none, true)

theorem sendLoop_eq {Env : Type} (envs : List Env)
    (fs : List (Option (Work Env))) :
    sendLoop envs fs =
      (List.zipWith (fun _ f? => Option.isSome f?) envs fs,
       List.zipWith replyOf envs fs,
       List.zipWith newEnvOf envs fs) := by
  induction envs generalizing fs with
  | nil => cases fs <;> rfl
  | cons e es ih =>
    cases fs with
    | nil => rfl
    | cons f? fs' =>
      cases f? <;> simp [sendLoop, ih, replyOf, newEnvOf]

theorem recvLoop_sendLoop {Env : Type} (envs : List Env)
    (fs : List (Option (Work Env))) :
    recvLoop (List.zipWith replyOf envs fs)
        (List.zipWith (fun _ f? => Option.isSome f?) envs fs) =
      List.zipWith recvdOf envs fs := by
  induction envs generalizing fs with
  | nil => cases fs <;> rfl
  | cons e es ih =>
    cases fs with
    | nil => rfl
    | cons f? fs' =>
      cases f? <;> simp [recvLoop, ih, replyOf, recvdOf]

theorem drain_sendLoop {Env : Type} (envs : List Env)
    (fs : List (Option (Work Env))) :
    drain (List.zipWith replyOf envs fs)
        (List.zipWith (fun _ f? => Option.isSome f?) envs fs) =
      List.replicate (min envs.length fs.length) Option.none := by
  induction envs generalizing fs with
  | nil => cases fs <;> rfl
  | cons e es ih =>
    cases fs with
    | nil => rfl
    | cons f? fs' =>
      cases f? <;>
        simp [drain, ih, replyOf, List.replicate, Nat.succ_min_succ]

/-- The per-worker results of a round over `fs`. -/
def roundResults {Env : Type} (envs : List Env)
    (fs : List (Option (Work Env))) : List PyVal :=
  List.zipWith (fun e f? => (recvdOf e f?).1) envs fs

/-- The coordinator right after `apply_async` over `fs`. -/
def asyncCoord {Env : Type} (c : Coord Env)
    (fs : List (Option (Work Env))) : Coord Env :=
  { c with envs := List.zipWith newEnvOf c.envs fs,
           state := .waitingApply,
           expects_result := List.zipWith (fun _ f? => Option.isSome f?)
             c.envs fs,
           pipes := List.zipWith replyOf c.envs fs }

/-- The coordinator after a successful round over `fs`. -/
def roundCoord {Env : Type} (c : Coord Env)
    (fs : List (Option (Work Env))) : Coord Env :=
  { c with envs := List.zipWith newEnvOf c.envs fs,
           state := .default,
           expects_result := List.zipWith (fun _ f? => Option.isSome f?)
             c.envs fs,
           pipes := List.replicate c.num_envs Option.none }

theorem apply_async_ok {Env : Type} (c : Coord Env)
    (fs : List (Option (Work Env)))
    (hc : c.closed = false) (hs : c.state = .default)
    (hlen : fs.length = c.num_envs) :
    apply_async c (.many fs) = (.ok (), asyncCoord c fs) := by
  simp [apply_async, hc, hs, hlen, sendLoop_eq, asyncCoord]

/-- A full `apply` round over `fs` from an idle coordinator: when every
success flag is true the round returns the per-worker results with the
coordinator back to `Idle`; when some reply failed, the first failure is
re-raised and the coordinator is left in `WAITING_APPLY`. -/
theorem apply_many_run {Env : Type} (c : Coord Env)
    (fs : List (Option (Work Env)))
    (hc : c.closed = false) (hs : c.state = .default)
    (hlen : fs.length = c.num_envs) :
    apply c (.many fs) true =
      match List.find? (fun p => !p.2)
          (List.zipWith recvdOf c.envs fs) with
      | some p =>
        (.error (.remote p.1),
         { asyncCoord c fs with
             pipes := List.replicate c.num_envs Option.none })
      | Option.none => (.ok (roundResults c.envs fs), roundCoord c fs) := by
  have hmin : min c.envs.length fs.length = c.num_envs := by
    rw [hlen]; exact Nat.min_self _
  simp only [apply, apply_async_ok c fs hc hs hlen]
  simp only [apply_wait, asyncCoord, hc, Bool.false_eq_true, reduceIte,
    reduceCtorEq, recvLoop_sendLoop, drain_sendLoop, hmin]
  cases List.find? (fun p => !p.2) (List.zipWith recvdOf c.envs fs) with
  | none => simp [roundResults, roundCoord, List.map_zipWith, hc]
  | some p => simp [hc]

theorem zipWith_const_snd {α β γ : Type _} (g : β → γ) :
    ∀ (as : List α) (bs : List β), as.length = bs.length →
      List.zipWith (fun _ b => g b) as bs = bs.map g
  | [], [], _ => rfl
  | [], _ :: _, h => by simp at h
  | _ :: _, [], h => by simp at h
  | _ :: as, b :: bs, h => by
    simp only [List.zipWith, List.map]
    exact congrArg _ (zipWith_const_snd g as bs (by simpa using h))

/-- A full `apply` round in which every addressed unit of work succeeds:
it returns the per-worker results and the coordinator is back to state
`Idle` with channels drained. -/
theorem apply_many_ok {Env : Type} (c : Coord Env)
    (fs : List (Option (Work Env)))
    (hc : c.closed = false) (hs : c.state = .default)
    (hlen : fs.length = c.num_envs)
    (hok : ∀ i e f, c.envs.get? i = some e → fs.get? i = some (some f) →
      (f e).isOk = true) :
    apply c (.many fs) true = (.ok (roundResults c.envs fs), roundCoord c fs) := by
  have hall : ∀ p ∈ List.zipWith (fun e f? => recvdOf e f?) c.envs fs,
      (!p.2) = false := by
    intro p hp
    rcases List.mem_iff_get?.mp hp with ⟨i, hi⟩
    rw [List.get?_zipWith'] at hi
    cases he : c.envs.get? i with
    | none => rw [he] at hi; simp at hi
    | some e =>
      cases hf : fs.get? i with
      | none => rw [he, hf] at hi; simp at hi
      | some f? =>
        rw [he, hf] at hi
        simp only [Option.map_some', Option.bind_some] at hi
        cases hi
        cases f? with
        | none => simp [recvdOf]
        | some f =>
          have := hok i e f he hf
          simp only [recvdOf, workerApply]
          cases hfe : f e with
          | ok v => cases v; simp
          | error m => rw [hfe] at this; simp [Except.isOk, Except.toBool] at this
  have hfind : List.find? (fun p => !p.2)
      (List.zipWith recvdOf c.envs fs) = Option.none :=
    List.find?_eq_none.mpr (by intro p hp; simpa using hall p hp)
  rw [apply_many_run c fs hc hs hlen, hfind]

/-!
## Claim theorems: the apply subsystem
-/

/-- C1: from an idle coordinator, `apply_async` over a length-N list of
units of work with non-callable placeholders records
`ExpectsResult[i] = true` exactly when entry `i` is callable and puts an
`Apply` command into channel `i` exactly when entry `i` is callable; and
whenever the composed `apply` returns a result list, that list has
length N, carries `None` at every placeholder position, and carries the
unit's value at every addressed position whose unit succeeded (so
`apply([f, None, g])` with N = 3 returns `[f(env0), None, g(env2)]`, see
the witness). -/
theorem apply_fills_placeholders_with_none (Env : Type) (c : Coord Env)
    (fs : List (Option (Work Env)))
    (hc : c.closed = false) (hs : c.state = AsyncState.default)
    (hlen : fs.length = c.num_envs) :
    ((apply_async c (.many fs)).2.expects_result = fs.map Option.isSome
      ∧ ∀ j, ((apply_async c (.many fs)).2.pipes.get? j).map Option.isSome
          = (fs.get? j).map Option.isSome)
    ∧ ∀ results c', apply c (.many fs) true = (.ok results, c') →
        results.length = c.num_envs
        ∧ (∀ j, fs.get? j = some Option.none →
            results.get? j = some PyVal.none)
        ∧ (∀ j f e v e', fs.get? j = some (some f) →
            c.envs.get? j = some e → f e = .ok (v, e') →
            results.get? j = some v) := by
  have hlen' : c.envs.length = fs.length := by
    simpa [Coord.num_envs] using hlen.symm
  have hasync := apply_async_ok c fs hc hs hlen
  constructor
  · constructor
    · rw [hasync]
      exact zipWith_const_snd Option.isSome c.envs fs hlen'
    · intro j
      rw [hasync]
      show ((List.zipWith replyOf c.envs fs).get? j).map Option.isSome = _
      rw [List.get?_zipWith']
      cases he : c.envs.get? j with
      | none =>
        have : fs.length ≤ j := by
          rw [← hlen']; exact List.get?_eq_none.mp he
        rw [List.get?_eq_none.mpr this]; simp
      | some e =>
        cases hf : fs.get? j with
        | none => simp
        | some f? => cases f? <;> simp [replyOf]
  · intro results c' h
    rw [apply_many_run c fs hc hs hlen] at h
    cases hfind : List.find? (fun p => !p.2)
        (List.zipWith recvdOf c.envs fs) with
    | some p => rw [hfind] at h; exact absurd (congrArg Prod.fst h) (by simp)
    | none =>
      rw [hfind] at h
      have hres : results = roundResults c.envs fs := by
        have := congrArg Prod.fst h
        simpa using this.symm
      subst hres
      refine ⟨?_, ?_, ?_⟩
      · simp only [roundResults, List.length_zipWith]
        rw [hlen', Nat.min_self, hlen]
      · intro j hj
        have hjlt : j < fs.length := by
          by_contra hge
          rw [List.get?_eq_none.mpr (Nat.not_lt.mp hge)] at hj
          exact Option.noConfusion hj
        have hje : c.envs.get? j
            = some (c.envs.get ⟨j, hlen' ▸ hjlt⟩) := List.get?_eq_get _
        show (List.zipWith (fun e f? => (recvdOf e f?).1)
          c.envs fs).get? j = some PyVal.none
        rw [List.get?_zipWith', hje, hj]
        simp [recvdOf]
      · intro j f e v e' hf he hfe
        show (List.zipWith (fun e f? => (recvdOf e f?).1)
          c.envs fs).get? j = some v
        rw [List.get?_zipWith', he, hf]
        simp [recvdOf, workerApply, hfe]

/-- The N = 3 coordinator of the spec's `apply([f, None, g])` example. -/
def exCoord3 : Coord Nat :=
  { envs := [10, 20, 30], closed := false, state := .default,
    expects_result := [], pipes := [] }

/-- `[f, None, g]` with `f = (· + 1)` and `g = (· * 2)` as payloads. -/
def exFuns3 : List (Option (Work Nat)) :=
  [some (fun e => .ok (.nat (e + 1), e)), Option.none,
   some (fun e => .ok (.nat (e * 2), e))]

theorem apply_fills_placeholders_with_none_witness :
    (apply_async exCoord3 (.many exFuns3)).2.expects_result
        = [true, false, true]
    ∧ (apply exCoord3 (.many exFuns3) true).1
        = .ok [.nat 11, .none, .nat 60]
    ∧ ([PyVal.nat 11, PyVal.none, PyVal.nat 60].get? 1 = some PyVal.none) := by
  have h := apply_fills_placeholders_with_none Nat exCoord3 exFuns3 rfl rfl
    (by decide)
  have hrun : apply exCoord3 (.many exFuns3) true
      = (.ok [PyVal.nat 11, PyVal.none, PyVal.nat 60],
         { envs := [10, 20, 30], closed := false, state := .default,
           expects_result := [true, false, true],
           pipes := [Option.none, Option.none, Option.none] }) := by decide
  refine ⟨h.1.1.trans (by decide), by decide, ?_⟩
  exact (h.2 _ _ hrun).2.1 1 rfl

/-- C2: calling `apply_async` while the call state is not `Idle` raises
`AlreadyPendingCall` naming the in-flight call, and calling `apply_wait`
while the call state is not `AwaitingApply` raises `NoAsyncCall`; in
both misuse cases the coordinator — channels included — is returned
unchanged, so no command was sent and the pending call state is kept. -/
theorem misuse_raises_and_leaves_state (Env : Type) (c : Coord Env)
    (hc : c.closed = false) :
    (c.state ≠ AsyncState.default → ∀ functions,
      apply_async c functions
        = (.error (.alreadyPendingCall c.state.value), c))
    ∧ (c.state ≠ AsyncState.waitingApply → ∀ ready,
      apply_wait c ready = (.error (.noAsyncCall "apply"), c)) := by
  constructor
  · intro h functions
    simp [apply_async, hc, h]
  · intro h ready
    simp [apply_wait, hc, h, AsyncState.value]

/-- A coordinator stuck waiting on a pending `step` call. -/
def exBusy : Coord Nat :=
  { envs := [0], closed := false, state := .waitingStep,
    expects_result := [], pipes := [] }

theorem misuse_raises_and_leaves_state_witness :
    apply_async exBusy (.single (fun e => .ok (.nat e, e)))
        = (.error (.alreadyPendingCall "step"), exBusy)
    ∧ apply_wait exBusy true = (.error (.noAsyncCall "apply"), exBusy) := by
  have h := misuse_raises_and_leaves_state Nat exBusy rfl
  exact ⟨h.1 (by decide) _, h.2 (by decide) true⟩

/-- One idle worker whose unit of work will raise `"boom"`. -/
def exOneIdle : Coord Nat :=
  { envs := [0], closed := false, state := .default,
    expects_result := [], pipes := [] }

/-- C3 counterexample: with one worker whose unit of work raises,
`apply` (hence `apply_wait`) re-raises the failure, but the call state
is `WAITING_APPLY` afterwards, not `Idle`: `self._raise_if_errors`
raises before line 151 (`self._state = AsyncState.DEFAULT`) runs. -/
theorem apply_wait_failure_keeps_waiting_cex :
    (apply exOneIdle (.many [some (fun _ => .error "boom")]) true).1
        = .error (.remote (.str "boom"))
    ∧ (apply exOneIdle (.many [some (fun _ => .error "boom")]) true).2.state
        = AsyncState.waitingApply
    ∧ AsyncState.waitingApply ≠ AsyncState.default := by
  exact ⟨by decide, by decide, by decide⟩

/-- C3 amended: `apply_wait` resets the call state to `Idle` on success
and on timeout; but when some collected reply has `success = false` it
re-raises the first such failure and leaves the call state at
`AwaitingApply` (so a subsequent `apply_async` fails with
`AlreadyPendingCall("apply")`). -/
theorem apply_wait_state_outcomes (Env : Type) (c : Coord Env)
    (hc : c.closed = false) (hs : c.state = AsyncState.waitingApply) :
    (apply_wait c false = (.error .timeout, { c with state := .default }))
    ∧ (∀ p, (recvLoop c.pipes c.expects_result).find? (fun q => !q.2)
          = some p →
        apply_wait c true = (.error (.remote p.1),
          { c with pipes := drain c.pipes c.expects_result })
        ∧ (apply_wait c true).2.state = AsyncState.waitingApply
        ∧ ∀ functions, apply_async (apply_wait c true).2 functions
            = (.error (.alreadyPendingCall "apply"), (apply_wait c true).2))
    ∧ ((recvLoop c.pipes c.expects_result).find? (fun q => !q.2)
          = Option.none →
        apply_wait c true
          = (.ok ((recvLoop c.pipes c.expects_result).map (fun q => q.1)),
             { c with state := .default,
                      pipes := drain c.pipes c.expects_result })) := by
  refine ⟨by simp [apply_wait, hc, hs], ?_, ?_⟩
  · intro p hp
    have hw : apply_wait c true = (.error (.remote p.1),
        { c with pipes := drain c.pipes c.expects_result }) := by
      simp [apply_wait, hc, hs, hp]
    refine ⟨hw, ?_, ?_⟩
    · rw [hw]; exact hs
    · intro functions
      rw [hw]
      simp [apply_async, hc, hs, AsyncState.value]
  · intro hnone
    simp [apply_wait, hc, hs, hnone]

/-- One worker in `WAITING_APPLY` whose channel holds a failed reply. -/
def exFailed : Coord Nat :=
  { envs := [5], closed := false, state := .waitingApply,
    expects_result := [true], pipes := [some (.str "boom", false)] }

theorem apply_wait_state_outcomes_witness :
    apply_wait exFailed false
        = (.error .timeout, { exFailed with state := AsyncState.default })
    ∧ apply_wait exFailed true
        = (.error (.remote (.str "boom")),
           { exFailed with pipes := [Option.none] })
    ∧ (apply_wait exFailed true).2.state = AsyncState.waitingApply := by
  have h := apply_wait_state_outcomes Nat exFailed rfl rfl
  have h2 := h.2.1 (.str "boom", false) (by decide)
  exact ⟨h.1, h2.1, h2.2.1⟩

/-- C5: when `_poll(timeout)` comes back unready — a finite timeout ran
out with some addressed worker not having replied — `apply_wait` raises
the timeout error, and the call state has already been reset to `Idle`
(line 135 runs before the raise on line 136). -/
theorem apply_wait_timeout_resets_state (Env : Type) (c : Coord Env)
    (hc : c.closed = false) (hs : c.state = AsyncState.waitingApply) :
    apply_wait c false = (.error .timeout, { c with state := .default })
    ∧ (apply_wait c false).2.state = AsyncState.default := by
  have hw : apply_wait c false
      = (.error .timeout, { c with state := .default }) := by
    simp [apply_wait, hc, hs]
  exact ⟨hw, by rw [hw]⟩

/-- One worker in `WAITING_APPLY` that has not replied yet. -/
def exSilent : Coord Nat :=
  { envs := [5], closed := false, state := .waitingApply,
    expects_result := [true], pipes := [Option.none] }

theorem apply_wait_timeout_resets_state_witness :
    apply_wait exSilent false
        = (.error .timeout, { exSilent with state := AsyncState.default })
    ∧ (apply_wait exSilent false).2.state = AsyncState.default := by
  have h := apply_wait_timeout_resets_state Nat exSilent rfl rfl
  exact ⟨h.1, h.2⟩

/-!
## The `apply_at` unwrapping
-/

theorem enumFrom_filter_map_snd {α : Type _} (q : Nat → Bool) :
    ∀ (l : List α) (k : Nat),
      ((l.enumFrom k).filter (fun p => q p.1)).map (fun p => p.2)
        = ((List.range l.length).filter (fun j => q (j + k))).filterMap
            (fun j => l.get? j)
  | [], _ => rfl
  | a :: l, k => by
    have ih := enumFrom_filter_map_snd q l (k + 1)
    have hpred : ((fun j => q (j + k)) ∘ Nat.succ)
        = fun j => q (j + (k + 1)) := by
      funext j; simp only [Function.comp]; congr 1; omega
    have hget : ((fun j => (a :: l).get? j) ∘ Nat.succ)
        = fun j => l.get? j := by
      funext j; rfl
    rw [List.length_cons, List.range_succ_eq_map, List.enumFrom,
      List.filter_cons, List.filter_cons, List.filter_map, hpred]
    cases hq : q k with
    | true =>
      simp only [hq, Nat.zero_add, if_pos, List.map_cons,
        List.filterMap_cons]
      rw [List.filterMap_map, hget, ih]
      rfl
    | false =>
      simp only [hq, Nat.zero_add, if_neg, Bool.false_eq_true,
        not_false_iff]
      rw [List.filterMap_map, hget, ih]

theorem enum_filter_map_snd {α : Type _} (q : Nat → Bool) (l : List α) :
    ((l.enum.filter (fun p => q p.1)).map (fun p => p.2))
      = ((List.range l.length).filter q).filterMap (fun j => l.get? j) := by
  have := enumFrom_filter_map_snd q l 0
  simpa [List.enum] using this

theorem filterMap_get?_all_lt {α : Type _} :
    ∀ (js : List Nat) (l : List α), (∀ j ∈ js, j < l.length) →
      (js.filterMap (fun j => l.get? j)).length = js.length
      ∧ ∀ k j, js.get? k = some j →
          (js.filterMap (fun j => l.get? j)).get? k = l.get? j
  | [], _, _ => ⟨rfl, by intro k j h; simp at h⟩
  | j :: js, l, h => by
    have hj : j < l.length := h j (List.mem_cons_self j js)
    have hrest := filterMap_get?_all_lt js l
      (fun i hi => h i (List.mem_cons_of_mem j hi))
    cases hg : l.get? j with
    | none =>
      rw [List.get?_eq_none] at hg
      omega
    | some a =>
      constructor
      · simp only [List.filterMap, hg, List.length_cons]
        exact congrArg Nat.succ hrest.1
      · intro k i hk
        cases k with
        | zero =>
          simp only [List.get?] at hk
          cases hk
          simp only [List.filterMap, hg, List.get?]
        | succ k' =>
          simp only [List.get?] at hk
          simp only [List.filterMap, hg, List.get?]
          exact hrest.2 k' i hk

theorem operationsFor_length {Env : Type} (n : Nat) (op : Work Env)
    (is : List Nat) : (operationsFor n op is).length = n := by
  simp [operationsFor]

theorem operationsFor_get? {Env : Type} {n j : Nat} (op : Work Env)
    (is : List Nat) (h : j < n) :
    (operationsFor n op is).get? j
      = some (if j ∈ is then some op else Option.none) := by
  rw [operationsFor, List.get?_map, List.get?_range h]
  rfl

theorem roundResults_length {Env : Type} (envs : List Env)
    (fs : List (Option (Work Env))) :
    (roundResults envs fs).length = min envs.length fs.length :=
  List.length_zipWith _ _ _

theorem roundResults_get? {Env : Type} {envs : List Env}
    {fs : List (Option (Work Env))} {j : Nat} {e : Env}
    {f? : Option (Work Env)} (he : envs.get? j = some e)
    (hf : fs.get? j = some f?) :
    (roundResults envs fs).get? j = some ((recvdOf e f?).1) := by
  show (List.zipWith (fun e f? => (recvdOf e f?).1) envs fs).get? j = _
  rw [List.get?_zipWith', he, hf]
  rfl

theorem apply_at_int_eq {Env : Type} (c : Coord Env) (op : Work Env)
    (i : Nat) :
    apply_at c op (.int i) =
      match apply c (.many (operationsFor c.num_envs op [i])) true with
      | (.error e, c') => (.error e, c')
      | (.ok results, c') =>
        if h : i < results.length then (.ok (.inl (results.get ⟨i, h⟩)), c')
        else (.error .indexError, c') := rfl

theorem apply_at_coll_eq {Env : Type} (c : Coord Env) (op : Work Env)
    (is : List Nat) :
    apply_at c op (.coll is) =
      match apply c (.many (operationsFor c.num_envs op is)) true with
      | (.error e, c') => (.error e, c')
      | (.ok results, c') =>
        (.ok (.inr ((results.enum.filter (fun p => p.1 ∈ is)).map
          (fun p => p.2))), c') := rfl

/-- Two idle workers holding the environments `10` and `20`. -/
def exPairIdle : Coord Nat :=
  { envs := [10, 20], closed := false, state := .default,
    expects_result := [], pipes := [] }

/-- C4 counterexample: with N = 2 environments `[10, 20]` and the
identity payload, `apply_at(f, [1, 0])` returns the results in
worker-index order `[f(env0), f(env1)]`, not in the caller-given order
`[f(env1), f(env0)]` as the claim requires for unsorted collections. -/
theorem apply_at_caller_order_cex :
    (apply_at exPairIdle (fun e => .ok (.nat e, e)) (.coll [1, 0])).1
        = .ok (.inr [.nat 10, .nat 20])
    ∧ (apply_at exPairIdle (fun e => .ok (.nat e, e)) (.coll [1, 0])).1
        ≠ .ok (.inr [.nat 20, .nat 10]) := by
  exact ⟨by decide, by decide⟩

/-- A scalar-index `apply_at` round whose operation succeeds on the
addressed environment. -/
theorem apply_at_int_run {Env : Type} (c : Coord Env) (op : Work Env)
    (i : Nat) (e : Env) (v : PyVal) (e' : Env)
    (hc : c.closed = false) (hs : c.state = AsyncState.default)
    (he : c.envs.get? i = some e) (hop : op e = .ok (v, e')) :
    apply_at c op (.int i)
      = (.ok (.inl v), roundCoord c (operationsFor c.num_envs op [i])) := by
  have hilt : i < c.num_envs := by
    by_contra hge
    rw [List.get?_eq_none.mpr (Nat.not_lt.mp hge)] at he
    exact Option.noConfusion he
  have hok : ∀ j e₀ f, c.envs.get? j = some e₀ →
      (operationsFor c.num_envs op [i]).get? j = some (some f) →
      (f e₀).isOk = true := by
    intro j e₀ f he₀ hf
    have hjlt : j < c.num_envs := by
      by_contra hge
      rw [List.get?_eq_none.mpr (by
        rw [operationsFor_length]; exact Nat.not_lt.mp hge)] at hf
      exact Option.noConfusion hf
    rw [operationsFor_get? op [i] hjlt] at hf
    by_cases hji : j ∈ [i]
    · rw [if_pos hji] at hf
      cases hf
      have hjeq : j = i := by simpa using hji
      subst hjeq
      rw [he₀] at he
      cases he
      rw [hop]; rfl
    · rw [if_neg hji] at hf
      simp at hf
  have hrun := apply_many_ok c (operationsFor c.num_envs op [i]) hc hs
    (operationsFor_length _ _ _) hok
  have hreslen : (roundResults c.envs
      (operationsFor c.num_envs op [i])).length = c.num_envs := by
    rw [roundResults_length, operationsFor_length]
    exact Nat.min_self _
  have hresi : (roundResults c.envs
      (operationsFor c.num_envs op [i])).get? i = some v := by
    rw [roundResults_get? he (operationsFor_get? op [i] hilt)]
    simp [recvdOf, workerApply, hop]
  have hidx : i < (roundResults c.envs
      (operationsFor c.num_envs op [i])).length := by
    rw [hreslen]; exact hilt
  rw [apply_at_int_eq c op i, hrun]
  dsimp only
  rw [dif_pos hidx]
  have hv : v = (roundResults c.envs
      (operationsFor c.num_envs op [i])).get ⟨i, hidx⟩ := by
    have hgg := List.get?_eq_get hidx
    rw [hresi] at hgg
    exact Option.some.inj hgg
  rw [← hv]

/-- Whenever a collection-index `apply_at` round returns a list, entry
`k` of that list is the result of the `k`-th addressed worker in
worker-index order. -/
theorem apply_at_coll_out {Env : Type} (c : Coord Env) (op : Work Env)
    (hc : c.closed = false) (hs : c.state = AsyncState.default) :
    ∀ is out c', apply_at c op (.coll is) = (.ok (.inr out), c') →
      out.length
          = ((List.range c.num_envs).filter (fun j => j ∈ is)).length
      ∧ ∀ k j e v e',
          ((List.range c.num_envs).filter (fun j => j ∈ is)).get? k
            = some j →
          c.envs.get? j = some e → op e = .ok (v, e') →
          out.get? k = some v := by
  intro is out c' h
  rw [apply_at_coll_eq, apply_many_run c (operationsFor c.num_envs op is)
    hc hs (operationsFor_length _ _ _)] at h
  cases hfind : List.find? (fun p => !p.2)
      (List.zipWith recvdOf c.envs (operationsFor c.num_envs op is)) with
  | some p =>
    rw [hfind] at h
    exact absurd (congrArg Prod.fst h) (by simp)
  | none =>
    rw [hfind] at h
    have hout : out = ((roundResults c.envs
        (operationsFor c.num_envs op is)).enum.filter
          (fun p => p.1 ∈ is)).map (fun p => p.2) := by
      have := congrArg Prod.fst h
      simpa using this.symm
    have hreslen : (roundResults c.envs
        (operationsFor c.num_envs op is)).length = c.num_envs := by
      rw [roundResults_length, operationsFor_length]
      exact Nat.min_self _
    rw [enum_filter_map_snd (fun j => decide (j ∈ is)), hreslen] at hout
    have hjs : ∀ j ∈ (List.range c.num_envs).filter (fun j => j ∈ is),
        j < (roundResults c.envs
          (operationsFor c.num_envs op is)).length := by
      intro j hj
      rw [hreslen]
      exact List.mem_range.mp (List.mem_of_mem_filter hj)
    have hfm := filterMap_get?_all_lt
      ((List.range c.num_envs).filter (fun j => j ∈ is))
      (roundResults c.envs (operationsFor c.num_envs op is)) hjs
    constructor
    · rw [hout]; exact hfm.1
    · intro k j e v e' hk he hop
      have hjlt : j < c.num_envs := by
        have hmem := List.get?_mem hk
        exact List.mem_range.mp (List.mem_of_mem_filter hmem)
      have hresj : (roundResults c.envs
          (operationsFor c.num_envs op is)).get? j = some v := by
        rw [roundResults_get? he (operationsFor_get? op is hjlt)]
        have hjin : j ∈ is := by
          have hmem := List.get?_mem hk
          simpa using List.of_mem_filter hmem
        rw [if_pos hjin]
        simp [recvdOf, workerApply, hop]
      rw [hout, hfm.2 k j hk, hresj]


/-- C4 amended: `apply_at` with a scalar integer index returns the
single value of the operation on that environment (not a one-element
list); with an index collection it returns the addressed workers'
results in worker-index order — the `i`-th returned entry corresponds
to the `i`-th smallest addressed worker index, `enumerate` order — which
coincides with the caller-given order only when the collection is sorted
(e.g. `apply_at(f, [0, 3])` is `[f(env0), f(env3)]`), not for unsorted
collections. -/
theorem apply_at_unwraps (Env : Type) (c : Coord Env) (op : Work Env)
    (hc : c.closed = false) (hs : c.state = AsyncState.default) :
    (∀ i e v e', c.envs.get? i = some e → op e = .ok (v, e') →
      (apply_at c op (.int i)).1 = .ok (.inl v))
    ∧ (∀ is out c', apply_at c op (.coll is) = (.ok (.inr out), c') →
        out.length
            = ((List.range c.num_envs).filter (fun j => j ∈ is)).length
        ∧ ∀ k j e v e',
            ((List.range c.num_envs).filter (fun j => j ∈ is)).get? k
              = some j →
            c.envs.get? j = some e → op e = .ok (v, e') →
            out.get? k = some v) := by
  constructor
  · intro i e v e' he hop
    rw [apply_at_int_run c op i e v e' hc hs he hop]
  · exact apply_at_coll_out c op hc hs

/-- Five idle workers holding the environments `10 .. 50`. -/
def exFive : Coord Nat :=
  { envs := [10, 20, 30, 40, 50], closed := false, state := .default,
    expects_result := [], pipes := [] }

theorem apply_at_unwraps_witness :
    (apply_at exFive (fun e => .ok (.nat (e + 1), e)) (.int 2)).1
        = .ok (.inl (.nat 31))
    ∧ (apply_at exFive (fun e => .ok (.nat (e + 1), e)) (.coll [0, 3])).1
        = .ok (.inr [.nat 11, .nat 41])
    ∧ [PyVal.nat 11, PyVal.nat 41].get? 0 = some (PyVal.nat 11)
    ∧ [PyVal.nat 11, PyVal.nat 41].get? 1 = some (PyVal.nat 41) := by
  have h := apply_at_unwraps Nat exFive
    (fun e => .ok (.nat (e + 1), e)) rfl rfl
  have hEq : apply_at exFive (fun e => .ok (.nat (e + 1), e)) (.coll [0, 3])
      = (.ok (.inr [.nat 11, .nat 41]),
         { envs := [10, 20, 30, 40, 50], closed := false, state := .default,
           expects_result := [true, false, false, true, false],
           pipes := [Option.none, Option.none, Option.none, Option.none,
             Option.none] }) := by decide
  have h2 := h.2 [0, 3] [.nat 11, .nat 41] _ hEq
  exact ⟨h.1 2 30 (.nat 31) 30 rfl rfl, congrArg Prod.fst hEq,
    h2.2 0 0 10 (.nat 11) 10 rfl rfl rfl,
    h2.2 1 3 40 (.nat 41) 40 rfl rfl rfl⟩

/-!
## The attribute Proxy
-/

/-- One worker whose environment owns a bound method `m`. -/
def exMeth : Coord WEnv :=
  { envs := [{ heap := [[("m", .method 0 "m")]], root := 0 }],
    closed := false, state := .default, expects_result := [], pipes := [] }

/-- C7 counterexample: a Proxy addressed by a scalar integer index —
`coordinator[0]`, K = 1 addressed worker — whose single addressed
worker resolves the name to a bound method returns that bare method
object, not a `BatchedMethod`: `apply_at` returns a single value there,
so `isinstance(results, list)` on line 232 is false and the batching
branch is skipped. -/
theorem proxy_scalar_method_not_batched_cex :
    (proxy_getattribute exMeth (.int 0) "m").1
        = .ok (.result (.method 0 "m"))
    ∧ (proxy_getattribute exMeth (.int 0) "m").1
        ≠ .ok (.batchedMethod [.method 0 "m"]) := by
  exact ⟨by decide, by decide⟩

/-- C7 amended: reading an attribute off a Proxy issues one `apply_at`
round with `attrgetter(name)`.  When the proxy is addressed by an index
collection — so `apply_at` returns a list — and every addressed worker
resolves the name to a bound method, the proxy returns a
`BatchedMethod` wrapping them; when some addressed worker resolves it
to a non-method value, the per-worker values are returned as a plain
list; a scalar-indexed proxy returns its single result unchanged, even
when that result is a bound method. -/
theorem proxy_getattribute_spec (c : Coord WEnv) (name : String)
    (hc : c.closed = false) (hs : c.state = AsyncState.default) :
    (∀ i e v, c.envs.get? i = some e → getattrW e name = .ok v →
      (proxy_getattribute c (.int i) name).1 = .ok (.result v))
    ∧ (∀ is out c₁,
        apply_at c (attrgetterWork name) (.coll is) = (.ok (.inr out), c₁) →
        ((∀ j e, j ∈ is → c.envs.get? j = some e →
            ∃ o mn, getattrW e name = .ok (.method o mn)) →
          proxy_getattribute c (.coll is) name
            = (.ok (.batchedMethod out), c₁))
        ∧ (∀ k j e v,
            ((List.range c.num_envs).filter (fun j => j ∈ is)).get? k
              = some j →
            c.envs.get? j = some e → getattrW e name = .ok v →
            isMethod v = false →
            proxy_getattribute c (.coll is) name
              = (.ok (.results out), c₁))) := by
  constructor
  · intro i e v he hv
    have happ1 : (apply_at c (attrgetterWork name) (.int i)).1
        = .ok (.inl v) := by
      rw [apply_at_int_run c (attrgetterWork name) i e v e hc hs he
        (by simp [attrgetterWork, hv])]
    cases hap : apply_at c (attrgetterWork name) (.int i) with
    | mk r c₁ =>
      rw [hap] at happ1
      simp only at happ1
      subst happ1
      simp [proxy_getattribute, hap]
  · intro is out c₁ hEq
    have h4 := apply_at_coll_out c (attrgetterWork name) hc hs is out c₁
      hEq
    constructor
    · intro hmeth
      have hall : out.all isMethod = true := by
        rw [List.all_eq_true]
        intro v hv
        rcases List.mem_iff_get?.mp hv with ⟨k, hk⟩
        have hklen : k < out.length := by
          by_contra hge
          rw [List.get?_eq_none.mpr (Nat.not_lt.mp hge)] at hk
          exact Option.noConfusion hk
        have hkjs : k < ((List.range c.num_envs).filter
            (fun j => j ∈ is)).length := by
          rw [← h4.1]; exact hklen
        have hjsk := List.get?_eq_get hkjs
        set j := ((List.range c.num_envs).filter
          (fun j => j ∈ is)).get ⟨k, hkjs⟩ with hjdef
        have hjmem : j ∈ (List.range c.num_envs).filter
            (fun j => j ∈ is) := List.get_mem _ _ hkjs
        have hjin : j ∈ is := by
          simpa using List.of_mem_filter hjmem
        have hjlt : j < c.num_envs :=
          List.mem_range.mp (List.mem_of_mem_filter hjmem)
        cases hje : c.envs.get? j with
        | none =>
          rw [List.get?_eq_none] at hje
          have hjlt' : j < c.envs.length := hjlt
          omega
        | some e =>
          rcases hmeth j e hjin hje with ⟨o, mn, hres⟩
          have hpt := h4.2 k j e (.method o mn) e hjsk hje
            (by simp [attrgetterWork, hres])
          rw [hk] at hpt
          cases hpt
          rfl
      simp [proxy_getattribute, hEq, hall]
    · intro k j e v hjs he hres hnm
      have hpt := h4.2 k j e v e hjs he (by simp [attrgetterWork, hres])
      have hvmem : v ∈ out := List.get?_mem hpt
      have hall : out.all isMethod = false := by
        cases hallv : out.all isMethod with
        | false => rfl
        | true =>
          rw [List.all_eq_true] at hallv
          rw [hallv v hvmem] at hnm
          exact Bool.noConfusion hnm
      simp [proxy_getattribute, hEq, hall]

/-- An environment owning a method `m` and the plain value `a = 1`. -/
def exProxyEnv1 : WEnv :=
  { heap := [[("m", .method 0 "m"), ("a", .nat 1)]], root := 0 }

/-- An environment owning a method `m` and the plain value `a = 2`. -/
def exProxyEnv2 : WEnv :=
  { heap := [[("m", .method 0 "m"), ("a", .nat 2)]], root := 0 }

/-- Two workers whose environments own a method `m` and plain values
under `a`. -/
def exProxy2 : Coord WEnv :=
  { envs := [exProxyEnv1, exProxyEnv2],
    closed := false, state := .default, expects_result := [], pipes := [] }

theorem proxy_getattribute_spec_witness :
    (proxy_getattribute exProxy2 (.int 0) "a").1 = .ok (.result (.nat 1))
    ∧ proxy_getattribute exProxy2 (.coll [0, 1]) "m"
        = ((.ok (.batchedMethod [.method 0 "m", .method 0 "m"])),
           (proxy_getattribute exProxy2 (.coll [0, 1]) "m").2)
    ∧ (proxy_getattribute exProxy2 (.coll [0, 1]) "a").1
        = .ok (.results [.nat 1, .nat 2]) := by
  have h := proxy_getattribute_spec exProxy2 "m" rfl rfl
  have hEq : apply_at exProxy2 (attrgetterWork "m") (.coll [0, 1])
      = (.ok (.inr [.method 0 "m", .method 0 "m"]),
         (apply_at exProxy2 (attrgetterWork "m") (.coll [0, 1])).2) := by
    decide
  have hmeth : ∀ j e, j ∈ [0, 1] → exProxy2.envs.get? j = some e →
      ∃ o mn, getattrW e "m" = .ok (.method o mn) := by
    intro j e hj he
    rcases List.mem_pair.mp hj with h0 | h1
    · subst h0; cases he; exact ⟨0, "m", by decide⟩
    · subst h1; cases he; exact ⟨0, "m", by decide⟩
  have hbatched := ((h.2 [0, 1] [.method 0 "m", .method 0 "m"] _ hEq).1)
    hmeth
  have hsc := proxy_getattribute_spec exProxy2 "a" rfl rfl
  exact ⟨hsc.1 0 exProxyEnv1 (.nat 1) rfl (by decide),
    hbatched.trans (by rw [hbatched]), by decide⟩

/-!
## The coordinator `__getattr__` fallback
-/

theorem zipWith_replicate_right {α β γ : Type _} (g : α → β → γ) (b : β) :
    ∀ (as : List α) (n : Nat), n = as.length →
      List.zipWith g as (List.replicate n b) = as.map (fun a => g a b)
  | [], _, h => by subst h; rfl
  | a :: as, n, h => by
    subst h
    simp only [List.length_cons, List.replicate, List.zipWith, List.map]
    rw [zipWith_replicate_right g b as as.length rfl]

theorem all_pyTruthy_bool_map {α : Type _} (l : List α) (f : α → Bool) :
    (l.map (fun e => PyVal.bool (f e))).all pyTruthy = l.all f := by
  induction l with
  | nil => rfl
  | cons e es ih => simp [List.all_cons, pyTruthy, ih]

/-- The `hasattr` probe round of `__getattr__`: broadcast to every
worker, collect the per-worker booleans, leave the coordinator idle
with every worker marked as probed. -/
theorem probe_round (c : Coord WEnv) (name : String)
    (hc : c.closed = false) (hs : c.state = AsyncState.default) :
    apply c (.single (hasattrWork name)) true
      = (.ok (c.envs.map (fun e => PyVal.bool (hasattr_ e name))),
         { c with state := .default,
                  expects_result := List.replicate c.num_envs true,
                  pipes := List.replicate c.num_envs Option.none }) := by
  have hsingle : apply c (.single (hasattrWork name)) true
      = apply c (.many (List.replicate c.num_envs
          (some (hasattrWork name)))) true := rfl
  rw [hsingle, apply_many_ok c _ hc hs (by simp)
    (by intro i e f _ hf
        have hmem := List.get?_mem hf
        have heq := List.eq_of_mem_replicate hmem
        cases heq
        rfl)]
  have hlen : (c.num_envs : Nat) = c.envs.length := rfl
  congr 1
  · congr 1
    rw [roundResults, zipWith_replicate_right _ _ _ _ hlen]
    rfl
  · rw [roundCoord]
    congr 1
    · rw [zipWith_replicate_right _ _ _ _ hlen]
      exact List.map_id' c.envs
    · rw [zipWith_replicate_right _ _ _ _ hlen]
      have hconst : (fun (_ : WEnv) =>
          Option.isSome (some (hasattrWork name))) = fun _ => true := rfl
      rw [hconst, List.map_const', hlen]

/-- `__getattr__` after a successful probe round, written as plain
branching on the collected flags. -/
theorem coordGetattr_eq (c : Coord WEnv) (name : String)
    (hname : ¬(name = "closed" ∨ name = "_state"))
    (flags : List PyVal) (c₁ : Coord WEnv)
    (hpr : apply c (.single (hasattrWork name)) true = (.ok flags, c₁)) :
    coordGetattr c name =
      if flags.all pyTruthy then
        (if c₁.closed then (.error .closedEnvironment, c₁)
         else
           match proxy_getattribute c₁ (.coll (List.range c₁.num_envs))
               name with
           | (.error e, c₂) => (.error e, c₂)
           | (.ok r, c₂) => (.ok (.forwarded r), c₂))
      else (.error (.attributeError name), c₁) := by
  simp only [coordGetattr, if_neg hname, hpr]

/-- C6: for any name it handles (not `"closed"`/`"_state"`), the
`__getattr__` fallback probes every worker with a remote `hasattr`
check; exactly when all N workers report the attribute present it
forwards the read to the full-index Proxy, and otherwise it raises
`AttributeError` naming the attribute — with every worker probed
(`ExpectsResult` is all-true from the probe round). -/
theorem getattr_fallback_probes_all (c : Coord WEnv) (name : String)
    (hname : ¬(name = "closed" ∨ name = "_state"))
    (hc : c.closed = false) (hs : c.state = AsyncState.default) :
    ((∀ e ∈ c.envs, hasattr_ e name = true) →
      ∃ r c₂, coordGetattr c name = (.ok (.forwarded r), c₂))
    ∧ ((¬ ∀ e ∈ c.envs, hasattr_ e name = true) →
      ∃ c₂, coordGetattr c name = (.error (.attributeError name), c₂)
        ∧ c₂.expects_result = List.replicate c.num_envs true) := by
  have hprobe := probe_round c name hc hs
  have hflags := all_pyTruthy_bool_map c.envs (fun e => hasattr_ e name)
  have hCG := coordGetattr_eq c name hname _ _ hprobe
  constructor
  · intro hall
    have hflags' : (c.envs.map
        (fun e => PyVal.bool (hasattr_ e name))).all pyTruthy = true := by
      rw [hflags, List.all_eq_true]
      exact hall
    set c₁ : Coord WEnv :=
      { c with state := .default,
               expects_result := List.replicate c.num_envs true,
               pipes := List.replicate c.num_envs Option.none } with hc₁
    have hok : ∀ j e f, c₁.envs.get? j = some e →
        (operationsFor c₁.num_envs (attrgetterWork name)
          (List.range c₁.num_envs)).get? j = some (some f) →
        (f e).isOk = true := by
      intro j e f he hf
      have hjlt : j < c₁.num_envs := by
        by_contra hge
        rw [List.get?_eq_none.mpr (by
          rw [operationsFor_length]; exact Nat.not_lt.mp hge)] at hf
        exact Option.noConfusion hf
      rw [operationsFor_get? _ _ hjlt] at hf
      rw [if_pos (List.mem_range.mpr hjlt)] at hf
      cases hf
      have hmem : e ∈ c.envs := List.get?_mem he
      have hae := hall e hmem
      simp only [attrgetterWork]
      unfold hasattr_ hasattrW at hae
      cases hg : getattrW e name with
      | ok v => rfl
      | error m => rw [hg] at hae; exact Bool.noConfusion hae
    have hrun := apply_many_ok c₁ _ hc (by rw [hc₁])
      (operationsFor_length _ _ _) hok
    have hat : apply_at c₁ (attrgetterWork name)
        (.coll (List.range c₁.num_envs))
        = (.ok (.inr (((roundResults c₁.envs
            (operationsFor c₁.num_envs (attrgetterWork name)
              (List.range c₁.num_envs))).enum.filter
                (fun p => p.1 ∈ List.range c₁.num_envs)).map
                  (fun p => p.2))),
           roundCoord c₁ (operationsFor c₁.num_envs (attrgetterWork name)
             (List.range c₁.num_envs))) := by
      rw [apply_at_coll_eq, hrun]
    have hpx : ∃ r c₂, proxy_getattribute c₁
        (.coll (List.range c₁.num_envs)) name = (.ok r, c₂) := by
      simp only [proxy_getattribute, hat]
      split
      · exact ⟨_, _, rfl⟩
      · exact ⟨_, _, rfl⟩
    rcases hpx with ⟨r, c₂, hpx⟩
    refine ⟨r, c₂, ?_⟩
    rw [hCG, if_pos hflags', if_neg (by rw [hc₁]; simp [hc]), hpx]
  · intro hnall
    have hflags' : (c.envs.map
        (fun e => PyVal.bool (hasattr_ e name))).all pyTruthy = false := by
      rw [hflags]
      cases hae : c.envs.all (fun e => hasattr_ e name) with
      | false => rfl
      | true => exact absurd (List.all_eq_true.mp hae) hnall
    have hclose : coordGetattr c name
        = (.error (.attributeError name),
           { c with state := .default,
                    expects_result := List.replicate c.num_envs true,
                    pipes := List.replicate c.num_envs Option.none }) := by
      rw [hCG, if_neg (by rw [hflags']; exact Bool.false_ne_true)]
    exact ⟨_, hclose, rfl⟩

/-- A worker whose environment owns attribute `"x"` but not `"y"`. -/
def exHasX : Coord WEnv :=
  { envs := [{ heap := [[("x", .nat 7)]], root := 0 }],
    closed := false, state := .default, expects_result := [], pipes := [] }

theorem getattr_fallback_probes_all_witness :
    (coordGetattr exHasX "x").1 = .ok (.forwarded (.results [.nat 7]))
    ∧ (coordGetattr exHasX "y").1 = .error (.attributeError "y")
    ∧ (coordGetattr exHasX "y").2.expects_result = [true] := by
  have hx := (getattr_fallback_probes_all exHasX "x" (by decide) rfl rfl).1
    (by decide)
  have hy := (getattr_fallback_probes_all exHasX "y" (by decide) rfl rfl).2
    (by decide)
  rcases hy with ⟨c₂, hy1, hy2⟩
  refine ⟨by decide, ?_, ?_⟩
  · rw [hy1]
  · rw [hy1]
    exact hy2

/-!
## The wrapper-chain attribute walk

`set_wrapper_attribute` and the round-trip through the Proxy.
-/

/-- Whether a stored value is an in-heap reference when it is a
reference at all (the heap is free of dangling references). -/
def refOk (n : Nat) : PyVal → Bool
  | .ref j => decide (j < n)
  | _ => true

/-- A well-formed worker heap: every stored object reference points
into the heap.  Real Python object graphs cannot dangle. -/
def WFHeap (h : Heap) : Prop :=
  ∀ m ∈ h, ∀ p ∈ m, refOk h.length p.2 = true

instance decidableWFHeap (h : Heap) : Decidable (WFHeap h) :=
  inferInstanceAs
    (Decidable (∀ m ∈ h, ∀ p ∈ m, refOk h.length p.2 = true))

theorem envLink_lt {h : Heap} {a b : Nat} (hwf : WFHeap h)
    (hl : envLink h a = some b) : b < h.length := by
  unfold envLink at hl
  cases hm : heapAttr h a "env" with
  | none => rw [hm] at hl; exact Option.noConfusion hl
  | some v =>
    rw [hm] at hl
    cases v <;> try exact Option.noConfusion hl
    case ref j =>
    cases hl
    unfold heapAttr at hm
    cases hga : h.get? a with
    | none => rw [hga] at hm; exact Option.noConfusion hm
    | some m =>
      rw [hga] at hm
      simp only [Option.some_bind] at hm
      unfold lookupAttr at hm
      cases hf : m.find? (fun p => p.1 == "env") with
      | none => rw [hf] at hm; exact Option.noConfusion hm
      | some p =>
        rw [hf] at hm
        have hp2 : p.2 = .ref b := by simpa using hm
        have hpm : p ∈ m := List.mem_of_find?_eq_some hf
        have hmh : m ∈ h := List.get?_mem hga
        have hok := hwf m hmh p hpm
        rw [hp2] at hok
        simpa [refOk] using hok

theorem setObjAttr_length (h : Heap) (t : Nat) (name : String)
    (v : PyVal) : (setObjAttr h t name v).length = h.length := by
  unfold setObjAttr
  cases hg : h.get? t with
  | none => rfl
  | some m => exact List.length_set h t _

theorem heapAttr_setObjAttr_self (h : Heap) (t : Nat) (name : String)
    (v : PyVal) (ht : t < h.length) :
    heapAttr (setObjAttr h t name v) t name = some v := by
  unfold setObjAttr
  cases hg : h.get? t with
  | none => rw [List.get?_eq_none] at hg; omega
  | some m =>
    unfold heapAttr
    rw [List.get?_set_eq, hg]
    simp [lookupAttr, List.find?_cons]

theorem heapAttr_setObjAttr_other (h : Heap) (t i : Nat)
    (name name' : String) (v : PyVal) (hne : i ≠ t) :
    heapAttr (setObjAttr h t name v) i name' = heapAttr h i name' := by
  unfold setObjAttr heapAttr
  cases hg : h.get? t with
  | none => rfl
  | some m => rw [List.get?_set_ne _ _ (fun hh => hne hh.symm)]

theorem envLink_setObjAttr_other (h : Heap) (t i : Nat) (name : String)
    (v : PyVal) (hne : i ≠ t) :
    envLink (setObjAttr h t name v) i = envLink h i := by
  unfold envLink
  rw [heapAttr_setObjAttr_other h t i name "env" v hne]

theorem hasattr_own_none (h : Heap) (env : Nat) (name : String)
    (hh : hasattrH h env name = false) :
    heapAttr h env name = Option.none := by
  unfold hasattrH at hh
  cases hm : heapAttr h env name with
  | none => rfl
  | some v =>
    exfalso
    have hgo : getattrGo h name (h.length + 1) env = .ok v := by
      simp [getattrGo, hm]
    rw [hgo] at hh
    exact Bool.noConfusion hh

theorem nodup_bounded_length {n : Nat} {ws : List Nat} (hnd : ws.Nodup)
    (hb : ∀ x ∈ ws, x < n) : ws.length ≤ n := by
  have h1 : ws.toFinset.card = ws.length :=
    List.toFinset_card_of_nodup hnd
  have h2 : ws.toFinset ⊆ Finset.range n := by
    intro x hx
    rw [Finset.mem_range]
    exact hb x (List.mem_toFinset.mp hx)
  have h3 := Finset.card_le_card h2
  rw [h1, Finset.card_range] at h3
  exact h3

/-- A walk along delegate (`env`) links from `a` to `t` whose every
node before `t` lacks the attribute (in the `hasattr` sense the loop
tests). -/
inductive EnvPath (h : Heap) (name : String) : Nat → Nat → Prop where
  | refl (t : Nat) : EnvPath h name t t
  | step {a b t : Nat} : hasattrH h a name = false → envLink h a = some b →
      EnvPath h name b t → EnvPath h name a t

theorem envLink_dom {h : Heap} {env nxt : Nat}
    (hl : envLink h env = some nxt) : env < h.length := by
  unfold envLink at hl
  cases hm : heapAttr h env "env" with
  | none => rw [hm] at hl; exact Option.noConfusion hl
  | some v =>
    unfold heapAttr at hm
    cases hga : h.get? env with
    | none => rw [hga] at hm; exact Option.noConfusion hm
    | some m =>
      by_contra hge
      rw [List.get?_eq_none.mpr (Nat.not_lt.mp hge)] at hga
      exact Option.noConfusion hga

/-- The walk of `set_wrapper_attribute` stops at an object that is
reached from the start along delegate links through attribute-less
wrappers, and that either has the attribute, or ends the chain, or was
already visited (the start of an attribute-less delegate cycle). -/
theorem swaLoop_spec (h : Heap) (name : String) (hwf : WFHeap h) :
    ∀ (fuel env : Nat) (ws : List Nat), env < h.length → ws.Nodup →
      (∀ x ∈ ws, x < h.length) →
      h.length + 1 ≤ fuel + ws.length →
      swaLoop h name fuel env ws < h.length
      ∧ EnvPath h name env (swaLoop h name fuel env ws)
      ∧ (hasattrH h (swaLoop h name fuel env ws) name = true
         ∨ envLink h (swaLoop h name fuel env ws) = Option.none
         ∨ swaLoop h name fuel env ws ∈ ws
         ∨ (hasattrH h (swaLoop h name fuel env ws) name = false
            ∧ ∃ u, envLink h (swaLoop h name fuel env ws) = some u
               ∧ EnvPath h name u (swaLoop h name fuel env ws)))
  | 0, env, ws, henv, hnd, hb, hfuel => by
    exfalso
    have := nodup_bounded_length hnd hb
    omega
  | fuel + 1, env, ws, henv, hnd, hb, hfuel => by
    simp only [swaLoop]
    cases hlink : envLink h env with
    | none =>
      exact ⟨henv, .refl env, Or.inr (Or.inl hlink)⟩
    | some nxt =>
      dsimp only
      by_cases hcond : hasattrH h env name = false ∧ env ∉ ws
      · rw [if_pos hcond]
        have hnxt : nxt < h.length := envLink_lt hwf hlink
        have ih := swaLoop_spec h name hwf fuel nxt (ws ++ [env]) hnxt
          (by rw [List.nodup_append]
              exact ⟨hnd, List.nodup_singleton env, by
                intro a ha hae
                rw [List.mem_singleton] at hae
                subst hae
                exact hcond.2 ha⟩)
          (by intro x hx
              rcases List.mem_append.mp hx with h1 | h1
              · exact hb x h1
              · rw [List.mem_singleton] at h1; subst h1; exact henv)
          (by rw [List.length_append, List.length_singleton]; omega)
        obtain ⟨hlt, hpath, hstop⟩ := ih
        refine ⟨hlt, .step hcond.1 hlink hpath, ?_⟩
        rcases hstop with h1 | h1 | h1 | h1
        · exact Or.inl h1
        · exact Or.inr (Or.inl h1)
        · rcases List.mem_append.mp h1 with h2 | h2
          · exact Or.inr (Or.inr (Or.inl h2))
          · have ht : swaLoop h name fuel nxt (ws ++ [env]) = env :=
              List.mem_singleton.mp h2
            refine Or.inr (Or.inr (Or.inr ⟨?_, nxt, ?_, ?_⟩))
            · rw [ht]; exact hcond.1
            · rw [ht]; exact hlink
            · rw [ht] at hpath ⊢; exact hpath
        · exact Or.inr (Or.inr (Or.inr h1))
      · rw [if_neg hcond]
        refine ⟨henv, .refl env, ?_⟩
        rcases not_and_or.mp hcond with h1 | h1
        · exact Or.inl (by revert h1; cases hasattrH h env name <;> simp)
        · exact Or.inr (Or.inr (Or.inl (not_not.mp h1)))

/-- One unit of fuel can be dropped as long as enough remains for the
visited list to exhaust the heap: the fuel is not what bounds the
walk. -/
theorem swaLoop_fuel_succ (h : Heap) (name : String) :
    ∀ (fuel env : Nat) (ws : List Nat), ws.Nodup →
      (∀ x ∈ ws, x < h.length) →
      h.length + 1 ≤ fuel + ws.length →
      swaLoop h name (fuel + 1) env ws = swaLoop h name fuel env ws
  | 0, env, ws, hnd, hb, hfuel => by
    exfalso
    have := nodup_bounded_length hnd hb
    omega
  | fuel + 1, env, ws, hnd, hb, hfuel => by
    conv_lhs => rw [swaLoop]
    conv_rhs => rw [swaLoop]
    cases hlink : envLink h env with
    | none => rfl
    | some nxt =>
      dsimp only
      by_cases hcond : hasattrH h env name = false ∧ env ∉ ws
      · rw [if_pos hcond, if_pos hcond]
        have henv : env < h.length := envLink_dom hlink
        exact swaLoop_fuel_succ h name fuel nxt (ws ++ [env])
          (by rw [List.nodup_append]
              exact ⟨hnd, List.nodup_singleton env, by
                intro a ha hae
                rw [List.mem_singleton] at hae
                subst hae
                exact hcond.2 ha⟩)
          (by intro x hx
              rcases List.mem_append.mp hx with h1 | h1
              · exact hb x h1
              · rw [List.mem_singleton] at h1; subst h1; exact henv)
          (by rw [List.length_append, List.length_singleton]; omega)
      · rw [if_neg hcond, if_neg hcond]

/-- Fuel-independence: `heap.length + 1` units of fuel are enough; any
larger amount computes the same target — the walk terminates because
the visited list bounds it, on cyclic chains included. -/
theorem swaLoop_fuel_ge (h : Heap) (name : String) (env : Nat) :
    ∀ fuel, h.length + 1 ≤ fuel →
      swaLoop h name fuel env [] = swaLoop h name (h.length + 1) env [] := by
  intro fuel hfuel
  induction fuel, hfuel using Nat.le_induction with
  | base => rfl
  | succ n hn ih =>
    rw [swaLoop_fuel_succ h name n env [] List.nodup_nil (by simp)
      (by simpa using hn), ih]

/-- Reading the attribute back after `set_wrapper_attribute`'s walk:
from the walk's start, delegating lookup reaches the object the walk
stopped at — every earlier object still lacks the attribute — and finds
the freshly written value there. -/
theorem swaLoop_readback (h : Heap) (name : String) (value : PyVal)
    (hwf : WFHeap h) :
    ∀ (fuel env : Nat) (ws : List Nat) (g : Nat), env < h.length →
      ws.Nodup → (∀ x ∈ ws, x < h.length) →
      h.length + 1 ≤ fuel + ws.length →
      h.length + 1 ≤ g + ws.length →
      getattrGo (setObjAttr h (swaLoop h name fuel env ws) name value)
        name g env = .ok value
  | 0, env, ws, g, henv, hnd, hb, hfuel, hg => by
    exfalso
    have := nodup_bounded_length hnd hb
    omega
  | fuel + 1, env, ws, g, henv, hnd, hb, hfuel, hg => by
    have hwslen : ws.length ≤ h.length := nodup_bounded_length hnd hb
    obtain ⟨g₀, rfl⟩ : ∃ g₀, g = g₀ + 1 := ⟨g - 1, by omega⟩
    simp only [swaLoop]
    cases hlink : envLink h env with
    | none =>
      simp only [getattrGo]
      rw [heapAttr_setObjAttr_self h env name value henv]
    | some nxt =>
      dsimp only
      by_cases hcond : hasattrH h env name = false ∧ env ∉ ws
      · rw [if_pos hcond]
        by_cases hte : swaLoop h name fuel nxt (ws ++ [env]) = env
        · rw [hte]
          simp only [getattrGo]
          rw [heapAttr_setObjAttr_self h env name value henv]
        · have hnxt : nxt < h.length := envLink_lt hwf hlink
          simp only [getattrGo]
          rw [heapAttr_setObjAttr_other h _ env name name value
              (fun hh => hte hh.symm),
            hasattr_own_none h env name hcond.1]
          rw [envLink_setObjAttr_other h _ env name value
            (fun hh => hte hh.symm), hlink]
          exact swaLoop_readback h name value hwf fuel nxt (ws ++ [env]) g₀
            hnxt
            (by rw [List.nodup_append]
                exact ⟨hnd, List.nodup_singleton env, by
                  intro a ha hae
                  rw [List.mem_singleton] at hae
                  subst hae
                  exact hcond.2 ha⟩)
            (by intro x hx
                rcases List.mem_append.mp hx with h1 | h1
                · exact hb x h1
                · rw [List.mem_singleton] at h1; subst h1; exact henv)
            (by rw [List.length_append, List.length_singleton]; omega)
            (by rw [List.length_append, List.length_singleton]; omega)
      · rw [if_neg hcond]
        simp only [getattrGo]
        rw [heapAttr_setObjAttr_self h env name value henv]

/-- Setting an attribute through the wrapper chain and reading it back
through the delegating lookup returns the value just written. -/
theorem set_then_get (e : WEnv) (name : String) (value : PyVal)
    (hwf : WFHeap e.heap) (hroot : e.root < e.heap.length) :
    getattrW (set_wrapper_attribute e name value).1 name = .ok value := by
  show getattrGo (setObjAttr e.heap
    (swaLoop e.heap name (e.heap.length + 1) e.root []) name value) name
    ((setObjAttr e.heap
      (swaLoop e.heap name (e.heap.length + 1) e.root []) name
        value).length + 1) e.root = .ok value
  rw [setObjAttr_length]
  exact swaLoop_readback e.heap name value hwf (e.heap.length + 1) e.root
    [] (e.heap.length + 1) hroot List.nodup_nil (by simp) (by simp)
    (by simp)

/-- C9: `set_wrapper_attribute` terminates on every wrapper chain —
cyclic chains included — because the visited `wrappers` list bounds the
walk: `heap.length + 1` units of fuel suffice and any larger amount
computes the same target.  It sets the attribute on the first wrapper
in the chain that already has it (every wrapper walked past lacks it),
or — when no wrapper has it and the chain ends — on the innermost
object (the one with no delegate link); on an attribute-free delegate
cycle it stops at the first revisited wrapper.  In all cases the target
afterwards holds the value. -/
theorem set_wrapper_attribute_spec (e : WEnv) (name : String)
    (value : PyVal) (hwf : WFHeap e.heap)
    (hroot : e.root < e.heap.length) :
    (∀ fuel, e.heap.length + 1 ≤ fuel →
      swaLoop e.heap name fuel e.root []
        = swaLoop e.heap name (e.heap.length + 1) e.root [])
    ∧ EnvPath e.heap name e.root (set_wrapper_attribute e name value).2
    ∧ (hasattrH e.heap (set_wrapper_attribute e name value).2 name = true
       ∨ envLink e.heap (set_wrapper_attribute e name value).2
           = Option.none
       ∨ (hasattrH e.heap (set_wrapper_attribute e name value).2 name
            = false
          ∧ ∃ u, envLink e.heap (set_wrapper_attribute e name value).2
              = some u
            ∧ EnvPath e.heap name u (set_wrapper_attribute e name value).2))
    ∧ heapAttr (set_wrapper_attribute e name value).1.heap
        (set_wrapper_attribute e name value).2 name = some value := by
  have hspec := swaLoop_spec e.heap name hwf (e.heap.length + 1) e.root []
    hroot List.nodup_nil (by simp) (by simp)
  have ht2 : (set_wrapper_attribute e name value).2
      = swaLoop e.heap name (e.heap.length + 1) e.root [] := rfl
  refine ⟨swaLoop_fuel_ge e.heap name e.root, ?_, ?_, ?_⟩
  · rw [ht2]; exact hspec.2.1
  · rw [ht2]
    rcases hspec.2.2 with h1 | h1 | h1 | h1
    · exact Or.inl h1
    · exact Or.inr (Or.inl h1)
    · exact absurd h1 (List.not_mem_nil _)
    · exact Or.inr (Or.inr h1)
  · exact heapAttr_setObjAttr_self _ _ _ _ hspec.1

/-- A two-object delegate cycle owning no attribute `"z"`. -/
def exCycle : WEnv :=
  { heap := [[("env", .ref 1)], [("env", .ref 0)]], root := 0 }

theorem set_wrapper_attribute_spec_witness :
    swaLoop exCycle.heap "z" 10 exCycle.root []
        = swaLoop exCycle.heap "z" 3 exCycle.root []
    ∧ (set_wrapper_attribute exCycle "z" (.nat 9)).2 = 0
    ∧ heapAttr (set_wrapper_attribute exCycle "z" (.nat 9)).1.heap
        (set_wrapper_attribute exCycle "z" (.nat 9)).2 "z"
          = some (.nat 9) := by
  have h := set_wrapper_attribute_spec exCycle "z" (.nat 9) (by decide)
    (by decide)
  exact ⟨h.1 10 (by decide), by decide, h.2.2.2⟩

/-- C8: the round-trip through the Proxy.  Setting
`coordinator[i].name = v` routes `set_wrapper_attribute` through one
`apply_at` round; reading `coordinator[i].name` afterwards issues an
`attrgetter` round against the updated environment and returns exactly
`v`. -/
theorem proxy_roundtrip (c : Coord WEnv) (i : Nat) (e : WEnv)
    (name : String) (v : PyVal)
    (hc : c.closed = false) (hs : c.state = AsyncState.default)
    (he : c.envs.get? i = some e)
    (hwf : WFHeap e.heap) (hroot : e.root < e.heap.length) :
    ∃ t c₁, proxy_setattr c (.int i) name v
        = (.ok (.inl (.pytype t)), c₁)
      ∧ (proxy_getattribute c₁ (.int i) name).1 = .ok (.result v) := by
  have hilt : i < c.num_envs := by
    by_contra hge
    rw [List.get?_eq_none.mpr (Nat.not_lt.mp hge)] at he
    exact Option.noConfusion he
  have hop : setWrapperWork name v e
      = .ok (.pytype (set_wrapper_attribute e name v).2,
             (set_wrapper_attribute e name v).1) := rfl
  have hset := apply_at_int_run c (setWrapperWork name v) i e
    (.pytype (set_wrapper_attribute e name v).2)
    (set_wrapper_attribute e name v).1 hc hs he hop
  refine ⟨(set_wrapper_attribute e name v).2,
    roundCoord c (operationsFor c.num_envs (setWrapperWork name v) [i]),
    hset, ?_⟩
  have he₁ : (roundCoord c (operationsFor c.num_envs
      (setWrapperWork name v) [i])).envs.get? i
      = some (set_wrapper_attribute e name v).1 := by
    show (List.zipWith newEnvOf c.envs (operationsFor c.num_envs
      (setWrapperWork name v) [i])).get? i = _
    rw [List.get?_zipWith', he, operationsFor_get? _ _ hilt,
      if_pos (by simp)]
    simp [newEnvOf, workerApply, hop]
  have hv' : getattrW (set_wrapper_attribute e name v).1 name = .ok v :=
    set_then_get e name v hwf hroot
  have hga := apply_at_int_run
    (roundCoord c (operationsFor c.num_envs (setWrapperWork name v) [i]))
    (attrgetterWork name) i (set_wrapper_attribute e name v).1 v
    (set_wrapper_attribute e name v).1 hc rfl he₁
    (by simp [attrgetterWork, hv'])
  simp [proxy_getattribute, hga]

/-- One worker owning a two-object wrapper chain with no `"attr"`. -/
def exChainEnv : WEnv := { heap := [[("env", .ref 1)], []], root := 0 }

/-- The coordinator for the round-trip example. -/
def exChain : Coord WEnv :=
  { envs := [exChainEnv], closed := false, state := .default,
    expects_result := [], pipes := [] }

theorem proxy_roundtrip_witness :
    (proxy_setattr exChain (.int 0) "attr" (.nat 42)).1
        = .ok (.inl (.pytype 1))
    ∧ (proxy_getattribute (proxy_setattr exChain (.int 0) "attr"
        (.nat 42)).2 (.int 0) "attr").1 = .ok (.result (.nat 42)) := by
  obtain ⟨t, c₁, h1, h2⟩ := proxy_roundtrip exChain 0 exChainEnv "attr"
    (.nat 42) rfl rfl rfl (by decide) (by decide)
  constructor
  · decide
  · have hsnd : (proxy_setattr exChain (.int 0) "attr" (.nat 42)).2 = c₁ :=
      congrArg Prod.snd h1
    rw [hsnd]
    exact h2

/-- C10: the attribute names `"closed"` and `"_state"` short-circuit
the `__getattr__` fallback — it returns `None` immediately, without
probing any worker (the coordinator is returned untouched) and without
any possibility of an `AttributeError`, whatever the remote
environments contain and whatever state the coordinator is in. -/
theorem getattr_closed_state_short_circuit (c : Coord WEnv) :
    coordGetattr c "closed" = (.ok .pyNone, c)
    ∧ coordGetattr c "_state" = (.ok .pyNone, c) := by
  constructor <;> simp [coordGetattr]

end Sequoia

